import Mathlib

/-!
Verification of the jmespath tree-walking evaluator (`jmespath/ast.py`).

The embedding models Python's JSON-like runtime values, the expression-node
classes, the `TreeInterpreter` visitor and the `_Projection` list subclass.
Python exceptions that escape evaluation (the `TypeError` raised by
`_Projection.__init__` when handed a non-iterable) are modelled by
`Except Unit`; `None` is `Value.null`.
-/

/-- A Python runtime value as the evaluator sees it: `null` is Python `None`;
`obj` is a `dict` (insertion-ordered association list); `arr` is a plain
`list`; `proj` is a `_Projection` (the `list` subclass built by wildcard and
flatten operators). -/
inductive Value : Type where
  | null : Value
  | bool (b : Bool) : Value
  | num (n : Int) : Value
  | str (s : String) : Value
  | arr (elems : List Value) : Value
  | obj (fields : List (String × Value)) : Value
  | proj (elems : List Value) : Value

/-- The expression-node classes (subclasses of `AST` in the source). Children
are kept exactly as the Python constructors store them in `self.nodes`;
`KeyValPair` stores `children_nodes=[node]`, i.e. exactly one child. -/
inductive AST : Type where
  | SubExpression (nodes : List AST) : AST
  | Field (name : String) : AST
  | MultiFieldDict (nodes : List AST) : AST
  | MultiFieldList (nodes : List AST) : AST
  | KeyValPair (key_name : String) (node : AST) : AST
  | Index (index : Int) : AST
  | WildcardIndex : AST
  | WildcardValues : AST
  | ListElements : AST
  | ORExpression (nodes : List AST) : AST

/-- `dict.get(k)`: the value stored under the first (unique, in real Python
dicts) occurrence of key `k`, or nothing when the key is absent. -/
def objLookup (k : String) : List (String × Value) → Option Value
  | [] => none
  | (k2, v) :: rest => if k2 = k then some v else objLookup k rest

/-- `d[k] = v` on an insertion-ordered dict: an existing key keeps its
position and takes the new value; a new key is appended. -/
def dictInsert (k : String) (v : Value) : List (String × Value) → List (String × Value)
  | [] => [(k, v)]
  | (k2, v2) :: rest =>
      if k2 = k then (k, v) :: rest else (k2, v2) :: dictInsert k v rest

/-- Python list indexing `l[i]`: a negative index counts from the end
(`i + len`), still negative after adjustment is `IndexError`; a lookup at or
past the end is `IndexError` too. `IndexError` is modelled as `none`. -/
def pyIndex (l : List Value) (i : Int) : Option Value :=
  if i < 0 then
    (if i + (l.length : Int) < 0 then none else l.get? (i + l.length).toNat)
  else
    l.get? i.toNat

/-- `isinstance(value, list)`: true for plain lists and `_Projection`s. -/
def Value.isList : Value → Bool
  | .arr _ => true
  | .proj _ => true
  | _ => false

/-- Python iteration over a value, as `list.extend` consumes it: lists and
projections yield their elements, strings their characters (as one-character
strings), dicts their keys; `None`, booleans and numbers are not iterable. -/
def pyIter : Value → Option (List Value)
  | .arr l => some l
  | .proj l => some l
  | .str s => some (s.data.map (fun c => Value.str (String.singleton c)))
  | .obj fields => some (fields.map (fun p => Value.str p.1))
  | _ => none

/-- `_Projection(value)`, i.e. `self.extend(value)` on a fresh empty list:
a projection over the value's iterated elements, or a raised `TypeError`
when the value is not iterable. -/
def mkProjection (v : Value) : Except Unit Value :=
  match pyIter v with
  | some l => .ok (.proj l)
  | none => .error ()

/-- The merge loop of `visit_ListElements`: each element that is itself a
list (plain or projection) is extended in, every other element appended. -/
def flattenOne : List Value → List Value
  | [] => []
  | .arr l :: rest => l ++ flattenOne rest
  | .proj l :: rest => l ++ flattenOne rest
  | e :: rest => e :: flattenOne rest

/-- `_Projection.get(name)`: broadcast a field lookup over the elements.
Elements without a `get` method are skipped; a `None` result is dropped;
a list-shaped result is wrapped as a nested projection and appended; a
nested projection element recurses. -/
def Projection.get (name : String) : List Value → List Value
  | [] => []
  | .obj fields :: rest =>
      (match objLookup name fields with
       | none => Projection.get name rest
       | some .null => Projection.get name rest
       | some (.arr l) => .proj l :: Projection.get name rest
       | some (.proj l) => .proj l :: Projection.get name rest
       | some v => v :: Projection.get name rest)
  | .proj inner :: rest => .proj (Projection.get name inner) :: Projection.get name rest
  | _ :: rest => Projection.get name rest

/-- `_Projection.get_index(index)`: keep only list-shaped elements whose
positional lookup succeeds. -/
def Projection.get_index (i : Int) : List Value → List Value
  | [] => []
  | .arr l :: rest =>
      (match pyIndex l i with
       | some v => v :: Projection.get_index i rest
       | none => Projection.get_index i rest)
  | .proj l :: rest =>
      (match pyIndex l i with
       | some v => v :: Projection.get_index i rest
       | none => Projection.get_index i rest)
  | _ :: rest => Projection.get_index i rest

/-- `_Projection.values()`: keep only elements with a `values` method (dicts
and nested projections), each wrapped as a projection of its values. -/
def Projection.values : List Value → List Value
  | [] => []
  | .obj fields :: rest => .proj (fields.map Prod.snd) :: Projection.values rest
  | .proj inner :: rest => .proj (Projection.values inner) :: Projection.values rest
  | _ :: rest => Projection.values rest

mutual

/-- `TreeInterpreter.visit` together with the `visit_*` handlers of the
source, one match arm per node class. -/
def visit : AST → Value → Except Unit Value
  | .SubExpression ns, v => visitSeq ns v
  | .Field name, v =>
      match v with
      | .obj fields => .ok ((objLookup name fields).getD .null)
      | .proj elems => .ok (.proj (Projection.get name elems))
      | _ => .ok .null
  | .MultiFieldDict ns, v =>
      match v with
      | .null => .ok .null
      | .proj elems => do
          let rs ← Projection.multi_get ns elems
          .ok (.proj rs)
      | _ => do
          let fields ← buildDict ns v []
          .ok (.obj fields)
  | .MultiFieldList ns, v =>
      match v with
      | .null => .ok .null
      | .proj elems => do
          let rs ← Projection.multi_get_list ns elems
          .ok (.proj rs)
      | _ => do
          let items ← buildList ns v
          .ok (.arr items)
  | .KeyValPair _ inner, v => visit inner v
  | .Index i, v =>
      match v with
      | .arr l => .ok ((pyIndex l i).getD .null)
      | .proj elems => .ok (.proj (Projection.get_index i elems))
      | _ => .ok .null
  | .WildcardIndex, v => mkProjection v
  | .WildcardValues, v =>
      match v with
      | .obj fields => .ok (.proj (fields.map Prod.snd))
      | .proj elems => .ok (.proj (Projection.values elems))
      | _ => .ok .null
  | .ListElements, v =>
      match v with
      | .arr l => .ok (.proj (flattenOne l))
      | .proj l => .ok (.proj (flattenOne l))
      | _ => mkProjection v
  | .ORExpression (l :: rest), v => do
      let r1 ← visit l v
      match r1 with
      | .null =>
          (match rest with
           | r :: _ => visit r v
           | [] => .error ())
      | _ => .ok r1
  | .ORExpression [], _ => .error ()
termination_by n v => (sizeOf n, sizeOf v)
decreasing_by
  all_goals simp_wf
  all_goals omega

/-- The loop of `visit_SubExpression`: thread the value through the children
left to right. -/
def visitSeq : List AST → Value → Except Unit Value
  | [], v => .ok v
  | n :: rest, v => do
      let r ← visit n v
      visitSeq rest r
termination_by ns v => (sizeOf ns, sizeOf v)
decreasing_by
  all_goals simp_wf
  all_goals omega

/-- The non-projection loop of `visit_MultiFieldDict` (also the inner loop of
`_Projection.multi_get`): evaluate each child against the same value and
store the result under the child's `key_name`; a child that is not a
`KeyValPair` has no `key_name` and raises. -/
def buildDict : List AST → Value → List (String × Value) → Except Unit (List (String × Value))
  | [], _, acc => .ok acc
  | n :: rest, v, acc => do
      let cur ← visit n v
      match n with
      | .KeyValPair k _ => buildDict rest v (dictInsert k cur acc)
      | _ => .error ()
termination_by ns v _ => (sizeOf ns, sizeOf v)
decreasing_by
  all_goals simp_wf
  all_goals omega

/-- The non-projection loop of `visit_MultiFieldList` (also the inner loop of
`_Projection.multi_get_list`): evaluate each child against the same value,
collecting results in order. -/
def buildList : List AST → Value → Except Unit (List Value)
  | [], _ => .ok []
  | n :: rest, v => do
      let cur ← visit n v
      let tail ← buildList rest v
      .ok (cur :: tail)
termination_by ns v => (sizeOf ns, sizeOf v)
decreasing_by
  all_goals simp_wf
  all_goals omega

/-- `_Projection.multi_get(nodes)`: one dict per element, recursing into
nested projection elements; no element is dropped. -/
def Projection.multi_get (ns : List AST) : List Value → Except Unit (List Value)
  | [] => .ok []
  | .proj inner :: rest => do
      let l ← Projection.multi_get ns inner
      let tail ← Projection.multi_get ns rest
      .ok (Value.proj l :: tail)
  | e :: rest => do
      let d ← buildDict ns e []
      let tail ← Projection.multi_get ns rest
      .ok (Value.obj d :: tail)
termination_by elems => (sizeOf ns, sizeOf elems)
decreasing_by
  all_goals simp_wf
  all_goals omega

/-- `_Projection.multi_get_list(nodes)`: one list per element, recursing into
nested projection elements; no element is dropped. -/
def Projection.multi_get_list (ns : List AST) : List Value → Except Unit (List Value)
  | [] => .ok []
  | .proj inner :: rest => do
      let l ← Projection.multi_get_list ns inner
      let tail ← Projection.multi_get_list ns rest
      .ok (Value.proj l :: tail)
  | e :: rest => do
      let d ← buildList ns e
      let tail ← Projection.multi_get_list ns rest
      .ok (Value.arr d :: tail)
termination_by elems => (sizeOf ns, sizeOf elems)
decreasing_by
  all_goals simp_wf
  all_goals omega

end

/-- `AST.search(value)`: evaluation with a fresh interpreter, the library's
entry point. -/
def AST.search (n : AST) (v : Value) : Except Unit Value :=
  visit n v

mutual

/-- `AST.__eq__`: same class and recursively equal instance dictionaries
(children list plus the variant's own fields). -/
def astEq : AST → AST → Bool
  | .SubExpression ns, .SubExpression ms => astEqList ns ms
  | .Field n1, .Field n2 => n1 == n2
  | .MultiFieldDict ns, .MultiFieldDict ms => astEqList ns ms
  | .MultiFieldList ns, .MultiFieldList ms => astEqList ns ms
  | .KeyValPair k1 c1, .KeyValPair k2 c2 => k1 == k2 && astEq c1 c2
  | .Index i1, .Index i2 => i1 == i2
  | .WildcardIndex, .WildcardIndex => true
  | .WildcardValues, .WildcardValues => true
  | .ListElements, .ListElements => true
  | .ORExpression ns, .ORExpression ms => astEqList ns ms
  | _, _ => false
termination_by a _ => sizeOf a
decreasing_by
  all_goals simp_wf
  all_goals omega

/-- Python list equality over children: same length and pairwise `__eq__`. -/
def astEqList : List AST → List AST → Bool
  | [], [] => true
  | a :: as2, b :: bs => astEq a b && astEqList as2 bs
  | _, _ => false
termination_by ns _ => sizeOf ns
decreasing_by
  all_goals simp_wf
  all_goals omega

end

/-- `AST.__ne__`: the negation of `__eq__`. -/
def astNe (a b : AST) : Bool :=
  !astEq a b

mutual

theorem astEq_iff : ∀ a b : AST, astEq a b = true ↔ a = b := by
  intro a b
  cases a <;> cases b <;> simp [astEq]
  case SubExpression.SubExpression ns ms => exact astEqList_iff ns ms
  case MultiFieldDict.MultiFieldDict ns ms => exact astEqList_iff ns ms
  case MultiFieldList.MultiFieldList ns ms => exact astEqList_iff ns ms
  case ORExpression.ORExpression ns ms => exact astEqList_iff ns ms
  case KeyValPair.KeyValPair k1 c1 k2 c2 =>
    intro _
    exact astEq_iff c1 c2
termination_by a _ => sizeOf a
decreasing_by all_goals simp_wf

theorem astEqList_iff : ∀ ns ms : List AST, astEqList ns ms = true ↔ ns = ms := by
  intro ns ms
  cases ns <;> cases ms <;> simp [astEqList]
  case cons.cons a as2 b bs =>
    rw [astEq_iff a b, astEqList_iff as2 bs]
termination_by ns _ => sizeOf ns
decreasing_by
  all_goals simp_wf
  all_goals omega

end

/-- Has the `get` method Python's field lookup probes for: dicts and
projections. -/
def Value.hasGetMethod : Value → Bool
  | .obj _ => true
  | .proj _ => true
  | _ => false

/-- Has the `values` method Python's value enumeration probes for: dicts and
projections. -/
def Value.hasValuesMethod : Value → Bool
  | .obj _ => true
  | .proj _ => true
  | _ => false

mutual

/-- One element's contribution under the field-lookup broadcast, stated from
the (amended) specification: a dict contributes its (non-null) value for the
key, array-shaped values wrapped as one nested Projection; a nested
Projection contributes its own recursive broadcast; every other element is
dropped, as is a dict whose lookup is missing or null. -/
def specFieldOne (name : String) : Value → Option Value
  | .obj fields =>
      (match objLookup name fields with
       | none => none
       | some .null => none
       | some (.arr l) => some (.proj l)
       | some (.proj l) => some (.proj l)
       | some v => some v)
  | .proj inner => some (.proj (specFieldBroadcast name inner))
  | _ => none
termination_by v => sizeOf v
decreasing_by
  all_goals simp_wf
  all_goals omega

/-- The field-lookup broadcast from the specification: each element
contributes at most one result, survivors kept in order. -/
def specFieldBroadcast (name : String) : List Value → List Value
  | [] => []
  | e :: rest =>
      (match specFieldOne name e with
       | some r => r :: specFieldBroadcast name rest
       | none => specFieldBroadcast name rest)
termination_by elems => sizeOf elems
decreasing_by
  all_goals simp_wf
  all_goals omega

end

/-- The splice-or-keep step of the one-level flatten, stated from the
specification: a sequence element contributes its own elements, anything
else contributes itself. -/
def spliceOne : Value → List Value
  | .arr l => l
  | .proj l => l
  | e => [e]

/-- Positional lookup as §4.2 words it: offset `i` when `0 ≤ i < n`, offset
from the end when `-n ≤ i < 0`, nothing otherwise. -/
def specIndex (l : List Value) (i : Int) : Option Value :=
  if 0 ≤ i ∧ i < l.length then l.get? i.toNat
  else if -(l.length : Int) ≤ i ∧ i < 0 then l.get? (i + l.length).toNat
  else none

/-- One projection element's result under the multi-field-list broadcast: a
nested projection recurses, anything else gets every child evaluated against
it. -/
def multiListOne (ns : List AST) : Value → Except Unit Value
  | .proj inner => do
      let l ← Projection.multi_get_list ns inner
      pure (Value.proj l)
  | e => do
      let d ← buildList ns e
      pure (Value.arr d)

/-- One projection element's result under the multi-field-dict broadcast. -/
def multiDictOne (ns : List AST) : Value → Except Unit Value
  | .proj inner => do
      let l ← Projection.multi_get ns inner
      pure (Value.proj l)
  | e => do
      let d ← buildDict ns e []
      pure (Value.obj d)

/-- Is this node a `KeyValPair` (the only node class with a `key_name`)? -/
def isKeyValPair : AST → Bool
  | .KeyValPair _ _ => true
  | _ => false

/-- Does the children list have the two entries `visit_ORExpression` reads? -/
def hasTwoChildren : List AST → Bool
  | _ :: _ :: _ => true
  | _ => false

mutual

/-- Trees on which evaluation provably never raises: no `WildcardIndex` or
`ListElements` (whose `_Projection(value)` construction raises `TypeError`
on a non-iterable current value), `ORExpression` nodes with both the
children the handler reads, and `MultiFieldDict` children that all carry a
`key_name`. -/
def safeNode : AST → Bool
  | .SubExpression ns => safeNodes ns
  | .Field _ => true
  | .MultiFieldDict ns => ns.all isKeyValPair && safeNodes ns
  | .MultiFieldList ns => safeNodes ns
  | .KeyValPair _ c => safeNode c
  | .Index _ => true
  | .WildcardIndex => false
  | .WildcardValues => true
  | .ListElements => false
  | .ORExpression ns => hasTwoChildren ns && safeNodes ns
termination_by n => sizeOf n
decreasing_by
  all_goals simp_wf
  all_goals omega

def safeNodes : List AST → Bool
  | [] => true
  | n :: rest => safeNode n && safeNodes rest
termination_by ns => sizeOf ns
decreasing_by
  all_goals simp_wf
  all_goals omega

end

theorem specFieldBroadcast_eq_filterMap (name : String) (l : List Value) :
    specFieldBroadcast name l = l.filterMap (specFieldOne name) := by
  induction l with
  | nil => simp [specFieldBroadcast]
  | cons e rest ih =>
    rw [specFieldBroadcast, List.filterMap_cons]
    cases specFieldOne name e <;> simp [ih]

theorem projGet_eq_specBroadcast : ∀ (name : String) (elems : List Value),
    Projection.get name elems = specFieldBroadcast name elems := by
  intro name elems
  cases elems with
  | nil => simp [Projection.get, specFieldBroadcast]
  | cons e rest =>
    have ihrest := projGet_eq_specBroadcast name rest
    cases e with
    | obj fields =>
        rw [Projection.get, specFieldBroadcast, specFieldOne]
        cases h : objLookup name fields with
        | none => simpa [h] using ihrest
        | some v => cases v <;> simp [h, ihrest]
    | proj inner =>
        have ihinner := projGet_eq_specBroadcast name inner
        simp [Projection.get, specFieldBroadcast, specFieldOne, ihrest, ihinner]
    | null => simp [Projection.get, specFieldBroadcast, specFieldOne, ihrest]
    | bool b => simp [Projection.get, specFieldBroadcast, specFieldOne, ihrest]
    | num n => simp [Projection.get, specFieldBroadcast, specFieldOne, ihrest]
    | str s => simp [Projection.get, specFieldBroadcast, specFieldOne, ihrest]
    | arr l => simp [Projection.get, specFieldBroadcast, specFieldOne, ihrest]
termination_by name elems => sizeOf elems
decreasing_by
  all_goals simp_wf
  all_goals omega

theorem flattenOne_eq_flatMap (l : List Value) :
    flattenOne l = l.flatMap spliceOne := by
  induction l with
  | nil => simp [flattenOne]
  | cons e rest ih => cases e <;> simp [flattenOne, spliceOne, ih]

theorem pyIndex_eq_specIndex (l : List Value) (i : Int) :
    pyIndex l i = specIndex l i := by
  unfold pyIndex specIndex
  by_cases h1 : i < 0
  · rw [if_pos h1]
    by_cases h2 : i + (l.length : Int) < 0
    · rw [if_pos h2, if_neg (by omega), if_neg (by omega)]
    · rw [if_neg h2, if_neg (by omega), if_pos (by omega)]
  · rw [if_neg h1]
    by_cases h3 : i < (l.length : Int)
    · rw [if_pos (by omega)]
    · rw [if_neg (by omega), if_neg (by omega)]
      exact List.get?_eq_none.mpr (by omega)

theorem multi_get_list_eq_mapM (ns : List AST) (elems : List Value) :
    Projection.multi_get_list ns elems = elems.mapM (multiListOne ns) := by
  induction elems with
  | nil => rw [List.mapM_nil, Projection.multi_get_list]; rfl
  | cons e rest ih =>
    rw [List.mapM_cons, ← ih]
    cases e <;>
      simp only [Projection.multi_get_list, multiListOne, bind_assoc, pure_bind] <;>
      rfl

theorem multi_get_eq_mapM (ns : List AST) (elems : List Value) :
    Projection.multi_get ns elems = elems.mapM (multiDictOne ns) := by
  induction elems with
  | nil => rw [List.mapM_nil, Projection.multi_get]; rfl
  | cons e rest ih =>
    rw [List.mapM_cons, ← ih]
    cases e <;>
      simp only [Projection.multi_get, multiDictOne, bind_assoc, pure_bind] <;>
      rfl

theorem exceptBind_ok {α β : Type} (x : Except Unit α) (f : α → Except Unit β) (b : β) :
    (x >>= f) = .ok b ↔ ∃ a, x = .ok a ∧ f a = .ok b := by
  cases x <;> simp [Bind.bind, Except.bind]

theorem exceptMapM_length {α β : Type} (f : α → Except Unit β) :
    ∀ (l : List α) (res : List β), l.mapM f = .ok res → res.length = l.length := by
  intro l
  induction l with
  | nil =>
    intro res h
    rw [List.mapM_nil] at h
    simp only [Pure.pure, Except.pure, Except.ok.injEq] at h
    subst h
    rfl
  | cons e rest ih =>
    intro res h
    rw [List.mapM_cons] at h
    rw [exceptBind_ok] at h
    obtain ⟨y, hy, h⟩ := h
    rw [exceptBind_ok] at h
    obtain ⟨tail, htail, h⟩ := h
    simp only [Pure.pure, Except.pure, Except.ok.injEq] at h
    subst h
    simp [ih _ htail]
theorem visit_safe : ∀ (n : AST) (v : Value), safeNode n = true → ∃ r, visit n v = .ok r := by
  refine visit.induct
    (fun n v => safeNode n = true → ∃ r, visit n v = .ok r)
    (fun ns v => safeNodes ns = true → ∃ l, buildList ns v = .ok l)
    (fun ns elems => safeNodes ns = true → ∃ l, Projection.multi_get_list ns elems = .ok l)
    (fun ns v acc => ns.all isKeyValPair = true → safeNodes ns = true →
      ∃ d, buildDict ns v acc = .ok d)
    (fun ns elems => ns.all isKeyValPair = true → safeNodes ns = true →
      ∃ l, Projection.multi_get ns elems = .ok l)
    (fun ns v => safeNodes ns = true → ∃ r, visitSeq ns v = .ok r)
    ?_ ?_ ?_ ?_ ?_ ?_ ?_ ?_ ?_ ?_ ?_ ?_ ?_ ?_ ?_ ?_ ?_ ?_ ?_ ?_ ?_ ?_ ?_ ?_ ?_ ?_
    ?_ ?_ ?_ ?_ ?_ ?_ ?_ ?_ ?_
  -- SubExpression
  · intro ns v ih h
    rw [safeNode] at h
    obtain ⟨r, hr⟩ := ih h
    exact ⟨r, by simp [visit, hr]⟩
  -- Field / obj
  · intro name fields _
    simp [visit]
  -- Field / proj
  · intro name elems _
    simp [visit]
  -- Field / other values
  · intro name v _ _ _
    cases v <;> simp [visit]
  -- MultiFieldDict / null
  · intro ns _
    simp [visit]
  -- MultiFieldDict / proj
  · intro ns elems ih h
    rw [safeNode, Bool.and_eq_true] at h
    obtain ⟨l, hl⟩ := ih h.1 h.2
    exact ⟨.proj l, by simp [visit, hl, Bind.bind, Except.bind]⟩
  -- MultiFieldDict / other values
  · intro ns v hnull hproj ih h
    rw [safeNode, Bool.and_eq_true] at h
    obtain ⟨d, hd⟩ := ih h.1 h.2
    refine ⟨.obj d, ?_⟩
    cases v with
    | null => exact absurd rfl hnull
    | proj elems => exact absurd rfl (hproj elems)
    | bool b => simp [visit, hd, Bind.bind, Except.bind]
    | num m => simp [visit, hd, Bind.bind, Except.bind]
    | str s => simp [visit, hd, Bind.bind, Except.bind]
    | arr l => simp [visit, hd, Bind.bind, Except.bind]
    | obj fields => simp [visit, hd, Bind.bind, Except.bind]
  -- MultiFieldList / null
  · intro ns _
    simp [visit]
  -- MultiFieldList / proj
  · intro ns elems ih h
    rw [safeNode] at h
    obtain ⟨l, hl⟩ := ih h
    exact ⟨.proj l, by simp [visit, hl, Bind.bind, Except.bind]⟩
  -- MultiFieldList / other values
  · intro ns v hnull hproj ih h
    rw [safeNode] at h
    obtain ⟨items, hi⟩ := ih h
    refine ⟨.arr items, ?_⟩
    cases v with
    | null => exact absurd rfl hnull
    | proj elems => exact absurd rfl (hproj elems)
    | bool b => simp [visit, hi, Bind.bind, Except.bind]
    | num m => simp [visit, hi, Bind.bind, Except.bind]
    | str s => simp [visit, hi, Bind.bind, Except.bind]
    | arr l => simp [visit, hi, Bind.bind, Except.bind]
    | obj fields => simp [visit, hi, Bind.bind, Except.bind]
  -- KeyValPair
  · intro k inner v ih h
    rw [safeNode] at h
    obtain ⟨r, hr⟩ := ih h
    exact ⟨r, by simp [visit, hr]⟩
  -- Index / arr
  · intro i elems _
    simp [visit]
  -- Index / proj
  · intro i elems _
    simp [visit]
  -- Index / other values
  · intro i v _ _ _
    cases v <;> simp [visit]
  -- WildcardIndex: excluded by safeNode
  · intro v h
    simp [safeNode] at h
  -- WildcardValues / obj
  · intro fields _
    simp [visit]
  -- WildcardValues / proj
  · intro elems _
    simp [visit]
  -- WildcardValues / other values
  · intro v _ _ _
    cases v <;> simp [visit]
  -- ListElements: excluded by safeNode
  · intro elems h
    simp [safeNode] at h
  · intro elems h
    simp [safeNode] at h
  · intro v _ _ h
    simp [safeNode] at h
  -- ORExpression with at least one child
  · intro l rest v ih1 ih2 h
    rw [safeNode, Bool.and_eq_true] at h
    obtain ⟨h2, hsafe⟩ := h
    cases rest with
    | nil => simp [hasTwoChildren] at h2
    | cons b tail =>
      rw [safeNodes, Bool.and_eq_true] at hsafe
      obtain ⟨ha, hsafe2⟩ := hsafe
      rw [safeNodes, Bool.and_eq_true] at hsafe2
      obtain ⟨hb, _⟩ := hsafe2
      obtain ⟨r1, hr1⟩ := ih1 ha
      cases r1 with
      | null =>
          obtain ⟨r2, hr2⟩ := ih2 hb
          exact ⟨r2, by simp [visit, hr1, hr2, Bind.bind, Except.bind]⟩
      | bool c => exact ⟨.bool c, by simp [visit, hr1, Bind.bind, Except.bind]⟩
      | num m => exact ⟨.num m, by simp [visit, hr1, Bind.bind, Except.bind]⟩
      | str s => exact ⟨.str s, by simp [visit, hr1, Bind.bind, Except.bind]⟩
      | arr l2 => exact ⟨.arr l2, by simp [visit, hr1, Bind.bind, Except.bind]⟩
      | obj fields => exact ⟨.obj fields, by simp [visit, hr1, Bind.bind, Except.bind]⟩
      | proj elems => exact ⟨.proj elems, by simp [visit, hr1, Bind.bind, Except.bind]⟩
  -- ORExpression with no children: excluded by safeNode
  · intro v h
    simp [safeNode, hasTwoChildren] at h
  -- buildList / nil
  · intro v _
    exact ⟨[], by rw [buildList]⟩
  -- buildList / cons
  · intro n rest v ih1 ih2 h
    rw [safeNodes, Bool.and_eq_true] at h
    obtain ⟨cur, hcur⟩ := ih1 h.1
    obtain ⟨tail, ht⟩ := ih2 h.2
    exact ⟨cur :: tail, by simp [buildList, hcur, ht, Bind.bind, Except.bind]⟩
  -- multi_get_list / nil
  · intro ns _
    exact ⟨[], by rw [Projection.multi_get_list]⟩
  -- multi_get_list / proj element
  · intro ns inner rest ih1 ih2 h
    obtain ⟨l, hl⟩ := ih1 h
    obtain ⟨tail, ht⟩ := ih2 h
    exact ⟨.proj l :: tail, by simp [Projection.multi_get_list, hl, ht, Bind.bind, Except.bind]⟩
  -- multi_get_list / other element
  · intro ns e rest hne ih1 ih2 h
    obtain ⟨d, hd⟩ := ih1 h
    obtain ⟨tail, ht⟩ := ih2 h
    refine ⟨.arr d :: tail, ?_⟩
    cases e with
    | proj inner => exact absurd rfl (hne inner)
    | null => simp [Projection.multi_get_list, hd, ht, Bind.bind, Except.bind]
    | bool b => simp [Projection.multi_get_list, hd, ht, Bind.bind, Except.bind]
    | num m => simp [Projection.multi_get_list, hd, ht, Bind.bind, Except.bind]
    | str s => simp [Projection.multi_get_list, hd, ht, Bind.bind, Except.bind]
    | arr l => simp [Projection.multi_get_list, hd, ht, Bind.bind, Except.bind]
    | obj fields => simp [Projection.multi_get_list, hd, ht, Bind.bind, Except.bind]
  -- buildDict / nil
  · intro v acc _ _
    exact ⟨acc, by rw [buildDict]⟩
  -- buildDict / cons
  · intro n rest v acc ih1 ih2 hkv h
    rw [List.all_cons, Bool.and_eq_true] at hkv
    rw [safeNodes, Bool.and_eq_true] at h
    obtain ⟨cur, hcur⟩ := ih1 h.1
    cases n with
    | KeyValPair k c =>
        obtain ⟨d, hd⟩ := ih2 cur hkv.2 h.2
        exact ⟨d, by simp [buildDict, hcur, hd, Bind.bind, Except.bind]⟩
    | SubExpression ns2 => simp [isKeyValPair] at hkv
    | Field name => simp [isKeyValPair] at hkv
    | MultiFieldDict ns2 => simp [isKeyValPair] at hkv
    | MultiFieldList ns2 => simp [isKeyValPair] at hkv
    | Index i => simp [isKeyValPair] at hkv
    | WildcardIndex => simp [isKeyValPair] at hkv
    | WildcardValues => simp [isKeyValPair] at hkv
    | ListElements => simp [isKeyValPair] at hkv
    | ORExpression ns2 => simp [isKeyValPair] at hkv
  -- multi_get / nil
  · intro ns _ _
    exact ⟨[], by rw [Projection.multi_get]⟩
  -- multi_get / proj element
  · intro ns inner rest ih1 ih2 hkv h
    obtain ⟨l, hl⟩ := ih1 hkv h
    obtain ⟨tail, ht⟩ := ih2 hkv h
    exact ⟨.proj l :: tail, by simp [Projection.multi_get, hl, ht, Bind.bind, Except.bind]⟩
  -- multi_get / other element
  · intro ns e rest hne ih1 ih2 hkv h
    obtain ⟨d, hd⟩ := ih1 hkv h
    obtain ⟨tail, ht⟩ := ih2 hkv h
    refine ⟨.obj d :: tail, ?_⟩
    cases e with
    | proj inner => exact absurd rfl (hne inner)
    | null => simp [Projection.multi_get, hd, ht, Bind.bind, Except.bind]
    | bool b => simp [Projection.multi_get, hd, ht, Bind.bind, Except.bind]
    | num m => simp [Projection.multi_get, hd, ht, Bind.bind, Except.bind]
    | str s => simp [Projection.multi_get, hd, ht, Bind.bind, Except.bind]
    | arr l => simp [Projection.multi_get, hd, ht, Bind.bind, Except.bind]
    | obj fields => simp [Projection.multi_get, hd, ht, Bind.bind, Except.bind]
  -- visitSeq / nil
  · intro v _
    exact ⟨v, by rw [visitSeq]⟩
  -- visitSeq / cons
  · intro n rest v ih1 ih2 h
    rw [safeNodes, Bool.and_eq_true] at h
    obtain ⟨r1, hr1⟩ := ih1 h.1
    obtain ⟨r2, hr2⟩ := ih2 r1 h.2
    exact ⟨r2, by simp [visitSeq, hr1, hr2, Bind.bind, Except.bind]⟩

/-- C1: a Field lookup against a value without key-lookup capability or
against a dict missing the key, an Index lookup against a non-sequence or
against a plain array with an out-of-range index, and a WildcardValues
lookup against a value without value-enumeration capability, all evaluate
to null rather than raising. -/
theorem C1_lookup_failure_null :
    (∀ (name : String) (v : Value), v.hasGetMethod = false →
        visit (.Field name) v = .ok .null)
    ∧ (∀ (name : String) (fields : List (String × Value)), objLookup name fields = none →
        visit (.Field name) (.obj fields) = .ok .null)
    ∧ (∀ (i : Int) (v : Value), v.isList = false →
        visit (.Index i) v = .ok .null)
    ∧ (∀ (i : Int) (l : List Value), ((l.length : Int) ≤ i ∨ i < -(l.length : Int)) →
        visit (.Index i) (.arr l) = .ok .null)
    ∧ (∀ (v : Value), v.hasValuesMethod = false →
        visit .WildcardValues v = .ok .null) := by
  refine ⟨?_, ?_, ?_, ?_, ?_⟩
  · intro name v h
    cases v <;> simp_all [visit, Value.hasGetMethod]
  · intro name fields h
    simp [visit, h]
  · intro i v h
    cases v <;> simp_all [visit, Value.isList]
  · intro i l h
    have hnone : pyIndex l i = none := by
      rw [pyIndex_eq_specIndex, specIndex, if_neg (by omega), if_neg (by omega)]
    simp [visit, hnone]
  · intro v h
    cases v <;> simp_all [visit, Value.hasValuesMethod]

/-- Witness for C1 at concrete inputs. -/
theorem C1_witness :
    visit (.Field "a") (.num 3) = .ok .null
    ∧ visit (.Field "a") (.obj [("b", .num 1)]) = .ok .null
    ∧ visit (.Index 2) (.str "xy") = .ok .null
    ∧ visit (.Index 5) (.arr [.num 1]) = .ok .null
    ∧ visit .WildcardValues (.arr []) = .ok .null :=
  ⟨C1_lookup_failure_null.1 "a" (.num 3) rfl,
   C1_lookup_failure_null.2.1 "a" [("b", .num 1)] (by simp [objLookup]),
   C1_lookup_failure_null.2.2.1 2 (.str "xy") rfl,
   C1_lookup_failure_null.2.2.2.1 5 [.num 1] (by decide),
   C1_lookup_failure_null.2.2.2.2 (.arr []) rfl⟩

/-- C2: ORExpression(L, R) evaluates L first; exactly when L's result is
null does it evaluate and return R's result, otherwise it returns L's
result unchanged (so 0, empty string and false do not trigger the
fallback); the three spec examples are evaluated concretely. -/
theorem C2_or_expression_fallback :
    (∀ (L R : AST) (v : Value),
      visit (.ORExpression [L, R]) v =
        match visit L v with
        | .ok .null => visit R v
        | r => r)
    ∧ visit (.ORExpression [.Field "a", .Field "b"])
        (.obj [("a", .null), ("b", .num 2)]) = .ok (.num 2)
    ∧ visit (.ORExpression [.Field "a", .Field "b"])
        (.obj [("a", .num 1), ("b", .num 2)]) = .ok (.num 1)
    ∧ visit (.ORExpression [.Field "a", .Field "b"])
        (.obj [("a", .num 0), ("b", .num 2)]) = .ok (.num 0) := by
  refine ⟨?_, ?_, ?_, ?_⟩
  · intro L R v
    cases h : visit L v with
    | error e => simp [visit, h, Bind.bind, Except.bind]
    | ok r => cases r <;> simp [visit, h, Bind.bind, Except.bind]
  · simp [Bind.bind, Except.bind, visit, objLookup]
  · simp [Bind.bind, Except.bind, visit, objLookup]
  · simp [Bind.bind, Except.bind, visit, objLookup]

/-- C3 counterexample: an element whose field value is array-shaped is kept
as a single nested Projection element, not spliced into the outer result:
against [{"x": [1, 2]}] the broadcast yields [[1, 2]], which differs from
the spliced [1, 2]. -/
theorem C3_cex :
    visit (.SubExpression [.WildcardIndex, .Field "x"])
        (.arr [.obj [("x", .arr [.num 1, .num 2])]])
      = .ok (.proj [.proj [.num 1, .num 2]])
    ∧ (Value.proj [.proj [.num 1, .num 2]]) ≠ (Value.proj [.num 1, .num 2]) := by
  constructor
  · simp [Bind.bind, Except.bind, visit, visitSeq, mkProjection, pyIter,
      Projection.get, objLookup]
  · simp

/-- C3 amended: the field lookup broadcast over a Projection applies the
lookup to every element in order, drops elements lacking the capability or
whose lookup yields null, WRAPS an array-shaped individual result as one
nested Projection element (it does not splice it), recurses into nested
Projection elements, and keeps survivors in relative order (an
order-preserving filterMap); the spec's drop example evaluates to [1, 3]. -/
theorem C3_field_broadcast_amended :
    (∀ (name : String) (elems : List Value),
      visit (.SubExpression [.WildcardIndex, .Field name]) (.arr elems)
          = .ok (.proj (Projection.get name elems))
      ∧ Projection.get name elems = elems.filterMap (specFieldOne name))
    ∧ visit (.SubExpression [.WildcardIndex, .Field "x"])
        (.arr [.obj [("x", .num 1)], .obj [("y", .num 2)], .obj [("x", .num 3)]])
        = .ok (.proj [.num 1, .num 3]) := by
  refine ⟨fun name elems => ⟨?_, ?_⟩, ?_⟩
  · simp [Bind.bind, Except.bind, visit, visitSeq, mkProjection, pyIter]
  · rw [projGet_eq_specBroadcast, specFieldBroadcast_eq_filterMap]
  · simp [Bind.bind, Except.bind, visit, visitSeq, mkProjection, pyIter,
      Projection.get, objLookup]

/-- C4: the multi-field broadcasts over a Projection emit exactly one
result per projection element, in order (they are a monadic map), recursing
into nested Projection elements and dropping nothing even when individual
sub-fields evaluate to null; the spec example yields [[1], [null]]. -/
theorem C4_multi_field_broadcast :
    (∀ (ns : List AST) (elems : List Value),
      visit (.MultiFieldList ns) (.proj elems)
          = (Projection.multi_get_list ns elems).map Value.proj
      ∧ visit (.MultiFieldDict ns) (.proj elems)
          = (Projection.multi_get ns elems).map Value.proj
      ∧ Projection.multi_get_list ns elems = elems.mapM (multiListOne ns)
      ∧ Projection.multi_get ns elems = elems.mapM (multiDictOne ns))
    ∧ (∀ (ns : List AST) (elems res : List Value),
        Projection.multi_get_list ns elems = .ok res → res.length = elems.length)
    ∧ (∀ (ns : List AST) (elems res : List Value),
        Projection.multi_get ns elems = .ok res → res.length = elems.length)
    ∧ visit (.SubExpression [.WildcardIndex, .MultiFieldList [.Field "x"]])
        (.arr [.obj [("x", .num 1)], .obj [("y", .num 2)]])
        = .ok (.proj [.arr [.num 1], .arr [.null]]) := by
  refine ⟨fun ns elems => ⟨?_, ?_, multi_get_list_eq_mapM ns elems,
      multi_get_eq_mapM ns elems⟩, ?_, ?_, ?_⟩
  · cases h : Projection.multi_get_list ns elems <;>
      simp [visit, h, Bind.bind, Except.bind, Except.map]
  · cases h : Projection.multi_get ns elems <;>
      simp [visit, h, Bind.bind, Except.bind, Except.map]
  · intro ns elems res h
    rw [multi_get_list_eq_mapM] at h
    exact exceptMapM_length _ _ _ h
  · intro ns elems res h
    rw [multi_get_eq_mapM] at h
    exact exceptMapM_length _ _ _ h
  · simp [Bind.bind, Except.bind, visit, visitSeq, mkProjection, pyIter,
      Projection.multi_get_list, buildList, objLookup]

/-- Witness for C4's no-drop length law at a concrete input. -/
theorem C4_witness :
    ([Value.arr [.null], Value.arr [.null]] : List Value).length
      = ([Value.num 1, Value.num 2] : List Value).length :=
  C4_multi_field_broadcast.2.1 [.Field "a"] [.num 1, .num 2]
    [.arr [.null], .arr [.null]]
    (by simp [Projection.multi_get_list, buildList, visit, Bind.bind, Except.bind])

/-- C5 counterexample: ListElements against the non-sequence 4 raises a
TypeError (the `_Projection(value)` construction extends with the value,
which must be iterable) instead of producing the singleton Projection [4]
the claim promises. -/
theorem C5_cex :
    visit .ListElements (.num 4) = .error ()
    ∧ (Except.error () : Except Unit Value) ≠ .ok (.proj [.num 4]) := by
  constructor
  · simp [visit, mkProjection, pyIter]
  · simp

/-- C5 amended: against a sequence, ListElements flattens exactly one level
(sequence elements are spliced, others kept) into a Projection; against a
non-sequence the result is `_Projection(value)`, which extends with the
value's iterated elements — a string yields its characters, a dict its
keys, and null, booleans and numbers raise TypeError (no singleton
pass-through exists). -/
theorem C5_list_elements_amended :
    (∀ l : List Value, visit .ListElements (.arr l) = .ok (.proj (flattenOne l)))
    ∧ (∀ l : List Value, flattenOne l = l.flatMap spliceOne)
    ∧ (∀ s : String, visit .ListElements (.str s)
        = .ok (.proj (s.data.map (fun c => Value.str (String.singleton c)))))
    ∧ (∀ fields : List (String × Value), visit .ListElements (.obj fields)
        = .ok (.proj (fields.map (fun p => Value.str p.1))))
    ∧ visit .ListElements .null = .error ()
    ∧ (∀ b, visit .ListElements (.bool b) = .error ())
    ∧ (∀ m, visit .ListElements (.num m) = .error ())
    ∧ visit .ListElements (.arr [.arr [.num 1, .num 2], .arr [.num 3], .num 4])
        = .ok (.proj [.num 1, .num 2, .num 3, .num 4]) := by
  refine ⟨?_, flattenOne_eq_flatMap, ?_, ?_, ?_, ?_, ?_, ?_⟩
  · intro l; simp [visit]
  · intro s; simp [visit, mkProjection, pyIter]
  · intro fields; simp [visit, mkProjection, pyIter]
  · simp [visit, mkProjection, pyIter]
  · intro b; simp [visit, mkProjection, pyIter]
  · intro m; simp [visit, mkProjection, pyIter]
  · simp [visit, flattenOne]

/-- C6 counterexample: for the one-element array [7] and index 1 we have
|1| <= length, yet the evaluation returns null, not an element of the
array — the claim's in-range condition |i| <= n is wrong at i = n. -/
theorem C6_cex :
    (1 : Int).natAbs ≤ ([Value.num 7] : List Value).length
    ∧ visit (.Index 1) (.arr [.num 7]) = .ok .null
    ∧ (Value.null ∉ ([Value.num 7] : List Value)) := by
  refine ⟨by decide, ?_, by simp⟩
  simp [visit, pyIndex]

/-- C6 amended: Index(i) against a plain array returns the element selected
by the Python convention — offset i when 0 <= i < n, offset i + n when
-n <= i < 0 — and null otherwise (so the in-range condition is
-n <= i < n, not |i| <= n); in range an element always exists; against any
non-list value (strings included) it returns null. -/
theorem C6_index_range_amended :
    ∀ (i : Int) (l : List Value),
      visit (.Index i) (.arr l) = .ok ((specIndex l i).getD .null)
      ∧ (-(l.length : Int) ≤ i ∧ i < l.length →
          ∃ x, specIndex l i = some x ∧ visit (.Index i) (.arr l) = .ok x)
      ∧ (∀ v : Value, v.isList = false → visit (.Index i) v = .ok .null) := by
  intro i l
  have heval : visit (.Index i) (.arr l) = .ok ((specIndex l i).getD .null) := by
    simp [visit, pyIndex_eq_specIndex]
  refine ⟨heval, ?_, ?_⟩
  · intro hrange
    cases hx : specIndex l i with
    | some x => exact ⟨x, rfl, by rw [heval, hx]; rfl⟩
    | none =>
      exfalso
      rw [specIndex] at hx
      by_cases hpos : 0 ≤ i
      · rw [if_pos ⟨hpos, hrange.2⟩] at hx
        have := List.get?_eq_none.mp hx
        omega
      · rw [if_neg (by omega), if_pos (by omega)] at hx
        have := List.get?_eq_none.mp hx
        omega
  · intro v hv
    cases v <;> simp_all [visit, Value.isList]

/-- Witness for C6 at a concrete negative in-range index. -/
theorem C6_witness :
    ∃ x, specIndex [Value.num 7, Value.num 8] (-1) = some x
      ∧ visit (.Index (-1)) (.arr [Value.num 7, Value.num 8]) = .ok x :=
  (C6_index_range_amended (-1) [Value.num 7, Value.num 8]).2.1 (by decide)

/-- C7 counterexample: WildcardIndex applied to null raises a TypeError
(`_Projection(None)` calls `list.extend(None)`), so evaluation of a
well-formed tree can raise; the same happens for ListElements on a
number. -/
theorem C7_cex :
    visit .WildcardIndex .null = .error ()
    ∧ visit .ListElements (.num 0) = .error () := by
  constructor <;> simp [visit, mkProjection, pyIter]

/-- C7 amended: evaluation is a total function (it always terminates with
ok or error); for trees containing no WildcardIndex and no ListElements
(and well-formed OR/multi-field nodes) it never raises — null propagation
is the only failure mode there; WildcardIndex and ListElements raise
exactly when the current value is null, a boolean or a number (the
non-iterable values). -/
theorem C7_totality_amended :
    (∀ (n : AST) (v : Value), safeNode n = true → ∃ r, visit n v = .ok r)
    ∧ (∀ v : Value, visit .WildcardIndex v = .error ()
        ↔ v = .null ∨ (∃ b, v = .bool b) ∨ (∃ m, v = .num m))
    ∧ (∀ v : Value, visit .ListElements v = .error ()
        ↔ v = .null ∨ (∃ b, v = .bool b) ∨ (∃ m, v = .num m)) := by
  refine ⟨visit_safe, ?_, ?_⟩
  · intro v; cases v <;> simp [visit, mkProjection, pyIter]
  · intro v; cases v <;> simp [visit, mkProjection, pyIter]

/-- Witness for C7's never-raises part on a concrete safe tree. -/
theorem C7_witness :
    ∃ r, visit (.SubExpression [.Field "a", .Field "b"])
      (.obj [("a", .obj [("b", .num 5)])]) = .ok r :=
  C7_totality_amended.1 (.SubExpression [.Field "a", .Field "b"])
    (.obj [("a", .obj [("b", .num 5)])])
    (by simp [safeNode, safeNodes])

/-- C8: node equality (`__eq__`) is purely structural — true exactly when
the two trees are equal as terms, i.e. same variant and recursively equal
fields and children — and `__ne__` is its exact negation. -/
theorem C8_structural_equality :
    (∀ a b : AST, astEq a b = true ↔ a = b)
    ∧ (∀ a b : AST, astNe a b = !astEq a b) :=
  ⟨astEq_iff, fun _ _ => rfl⟩

/-- Witness for C8: two independently written equal trees compare equal,
and a differing field makes astEq false. -/
theorem C8_witness :
    astEq (.KeyValPair "k" (.Field "a")) (.KeyValPair "k" (.Field "a")) = true
    ∧ (AST.KeyValPair "k" (.Field "a")) ≠ (.KeyValPair "k" (.Field "b")) :=
  ⟨(C8_structural_equality.1 _ _).mpr rfl,
   fun h => by
    have := (C8_structural_equality.1 (.KeyValPair "k" (.Field "a"))
      (.KeyValPair "k" (.Field "b"))).mpr h
    simp [astEq, astEqList] at this⟩

/-- C9: evaluating a SubExpression with no children returns the current
value unchanged — the empty pipeline is the identity. -/
theorem C9_empty_subexpression_identity :
    ∀ v : Value, visit (.SubExpression []) v = .ok v := by
  intro v
  simp [visit, visitSeq]

/-- C10: ListElements on a Projection current value does not broadcast per
element: the whole projection is the input sequence, and each element that
is itself a sequence (nested Projections included) is spliced one level
while every other element is kept, the result being a new Projection. -/
theorem C10_list_elements_on_projection :
    (∀ elems : List Value,
      visit .ListElements (.proj elems) = .ok (.proj (flattenOne elems)))
    ∧ (∀ elems : List Value, flattenOne elems = elems.flatMap spliceOne)
    ∧ visit .ListElements (.proj [.proj [.num 1], .arr [.num 2], .num 3])
        = .ok (.proj [.num 1, .num 2, .num 3]) := by
  refine ⟨?_, flattenOne_eq_flatMap, ?_⟩
  · intro elems; simp [visit]
  · simp [visit, flattenOne]
